import Mathlib

/-
  Shallow embedding of `src/field.mapper.delegate.js` (the FieldMapperDelegate
  orchestrator of the transform package).

  Modelling conventions:
  * JavaScript property-table `this.delegate` is a total function `String → Slot`
    where `Slot.undef` is an absent property, `Slot.nullSlot` is an explicit
    `null` (the denial marker written by the narrowing passes) and
    `Slot.mapper m` is a stored FieldMapper object.
  * The value of `this.curPermissionLvl` may be `undefined` (fresh instance),
    `null` (after `_checkAndReset`) or a string; `JSVal` captures the three
    cases and `JSVal.toKey` is JavaScript's coercion of a bracket subscript to
    a property key (`obj[undefined]` reads property "undefined", `obj[null]`
    reads property "null").
  * JavaScript object identity of `new`-allocated FieldMapper instances is
    modelled by a serial number `Mapper.mid` drawn from the delegate's
    allocation counter `nextId`: two slots alias the same object exactly when
    they hold mappers with the same serial number.
  * Methods that `throw` return `Except String`; the thrown message is kept.
  * `transform` returns a `TransformCall`: either the delegation
    `fieldMapper.map(instance, sourceKey, isList)` (constructor `callMap`,
    recording the exact arguments passed on) or `Promise.resolve()`
    (constructor `resolveUndefined`, which by construction is a resolved —
    never rejected — promise holding `undefined`).
-/

namespace Transform

/-- JavaScript value used for the transient `curPermissionLvl` field:
`undefined`, `null`, or a string token. -/
inductive JSVal where
  | undefJ
  | nullJ
  | strJ (s : String)
deriving DecidableEq, Repr

/-- JavaScript coercion of a value to a property key, as performed by
`this.delegate[this.curPermissionLvl]`. -/
def JSVal.toKey : JSVal → String
  | .undefJ => "undefined"
  | .nullJ => "null"
  | .strJ s => s

/-- The payload of a FieldMapper collaborator: `PassthroughFieldMapper`,
`CustomFieldMapper(builder)` (the builder function identified by a code),
or `SubTransformFieldMapper(transformerKey, permission)`. -/
inductive FieldMapperData where
  | passthroughFM
  | customFM (builder : Nat)
  | subTransformFM (transformerKey : String) (permission : String)
deriving DecidableEq, Repr

/-- A FieldMapper object: its allocation serial number (object identity)
together with its payload. -/
structure Mapper where
  mid : Nat
  data : FieldMapperData
deriving DecidableEq, Repr

/-- One slot of the `this.delegate` table: absent property, explicit `null`
(denial), or a FieldMapper object. -/
inductive Slot where
  | undef
  | nullSlot
  | mapper (m : Mapper)
deriving DecidableEq, Repr

/-- Property assignment `table[k] = v` on a JavaScript object. -/
def update (t : String → Slot) (k : String) (v : Slot) : String → Slot :=
  fun x => if x = k then v else t x

/-- Modelled from the spec: the canonical built-in `PermissionRanking` is
imported from `./permission`, a module that is not among the sources. The
spec describes it as an ordered sequence of permission levels, lowest trust
first, with canonical tokens exemplified as PUBLIC and PRIVATE (the test
suite uses `FieldPermissionLvl.PUBLIC` / `FieldPermissionLvl.PRIVATE`). -/
def PermissionRanking : List String := ["PUBLIC", "PRIVATE"]

/-- `Array.prototype.indexOf` (first index of a `===`-equal element, or
`-1`, modelled as `none`). -/
def jsIndexOf (l : List String) (x : String) : Option Nat :=
  match l with
  | [] => none
  | y :: ys => if y = x then some 0 else (jsIndexOf ys x).map (fun i => i + 1)

/-- State of a `FieldMapperDelegate` instance.  Fields carry the source's
names; `nextId` is the allocation counter for mapper object identity. -/
structure FieldMapperDelegate where
  permissionRanking : List String
  defaultPermissionRanking : Bool
  sourceKey : String
  delegate : String → Slot
  curPermissionLvl : JSVal
  alwaysFlag : Bool
  restrictAtOrAbove : Option Nat
  restrict : Option Nat
  isList : Bool
  nextId : Nat

/-- `new FieldMapperDelegate(sourceKey, permissionRanking)`: an omitted
custom ranking selects the default one and sets `_defaultPermissionRanking`.
All transient builder state starts out `undefined` (absent). -/
def FieldMapperDelegate.create (sourceKey : String)
    (permissionRanking : Option (List String)) : FieldMapperDelegate where
  permissionRanking := permissionRanking.getD PermissionRanking
  defaultPermissionRanking := permissionRanking.isNone
  sourceKey := sourceKey
  delegate := fun _ => Slot.undef
  curPermissionLvl := JSVal.undefJ
  alwaysFlag := false
  restrictAtOrAbove := none
  restrict := none
  isList := false
  nextId := 0

/-- `always()`: set the broadcast flag; `curPermissionLvl` becomes
`this.permissionRanking[0]` (which is `undefined` on an empty ranking). -/
def FieldMapperDelegate.always (d : FieldMapperDelegate) : FieldMapperDelegate :=
  { d with
    alwaysFlag := true,
    curPermissionLvl :=
      match d.permissionRanking with
      | [] => JSVal.undefJ
      | p :: _ => JSVal.strJ p }

/-- `when(permission)`: select a single level, with no validation against
the ranking. -/
def FieldMapperDelegate.when (d : FieldMapperDelegate) (permission : String) :
    FieldMapperDelegate :=
  { d with curPermissionLvl := JSVal.strJ permission }

/-- `atOrAbove(permission)`: record the cutoff index, throwing
`Permission Lvl Not Found` when the token is not in the ranking. -/
def FieldMapperDelegate.atOrAbove (d : FieldMapperDelegate) (permission : String) :
    Except String FieldMapperDelegate :=
  match jsIndexOf d.permissionRanking permission with
  | none => Except.error "Permission Lvl Not Found"
  | some index =>
      Except.ok { d with
        restrictAtOrAbove := some index,
        curPermissionLvl := JSVal.strJ permission }

/-- `restrictTo(permission)`: record the sole-restriction index, throwing
`Permission Lvl Not Found` when the token is not in the ranking. -/
def FieldMapperDelegate.restrictTo (d : FieldMapperDelegate) (permission : String) :
    Except String FieldMapperDelegate :=
  match jsIndexOf d.permissionRanking permission with
  | none => Except.error "Permission Lvl Not Found"
  | some index =>
      Except.ok { d with
        restrict := some index,
        curPermissionLvl := JSVal.strJ permission }

/-- `_always()`: when the broadcast flag is set, copy
`this.delegate[this.curPermissionLvl]` into every level's slot (the read
re-occurs at each loop iteration, exactly as in the source's `forEach`). -/
def FieldMapperDelegate._always (d : FieldMapperDelegate) : FieldMapperDelegate :=
  { d with
    delegate :=
      if d.alwaysFlag then
        d.permissionRanking.foldl
          (fun t permission => update t permission (t d.curPermissionLvl.toKey))
          d.delegate
      else d.delegate }

/-- `_restrictAtOrAbove(fieldMapper)`: when a cutoff index is recorded,
loop over all ranking indices, forcing slots below the cutoff to `null` and
the rest to `fieldMapper`. -/
def FieldMapperDelegate._restrictAtOrAbove (d : FieldMapperDelegate)
    (fieldMapper : Slot) : FieldMapperDelegate :=
  { d with
    delegate :=
      match d.restrictAtOrAbove with
      | none => d.delegate
      | some cutoff =>
          (List.range d.permissionRanking.length).foldl
            (fun t i =>
              update t (d.permissionRanking.getD i "")
                (if i < cutoff then Slot.nullSlot else fieldMapper))
            d.delegate }

/-- `_restrictTo(fieldMapper)`: when a sole index is recorded, loop over all
ranking indices, forcing every other slot to `null` and the sole slot to
`fieldMapper`. -/
def FieldMapperDelegate._restrictTo (d : FieldMapperDelegate)
    (fieldMapper : Slot) : FieldMapperDelegate :=
  { d with
    delegate :=
      match d.restrict with
      | none => d.delegate
      | some sole =>
          (List.range d.permissionRanking.length).foldl
            (fun t i =>
              update t (d.permissionRanking.getD i "")
                (if i ≠ sole then Slot.nullSlot else fieldMapper))
            d.delegate }

/-- `_checkAndReset(fieldMapper)`: run the three narrowing passes in order,
then reset `curPermissionLvl` and the broadcast flag to `null`.  The cutoff
and sole indices are NOT cleared. -/
def FieldMapperDelegate._checkAndReset (d : FieldMapperDelegate)
    (fieldMapper : Slot) : FieldMapperDelegate :=
  let d1 := d._always
  let d2 := d1._restrictAtOrAbove fieldMapper
  let d3 := d2._restrictTo fieldMapper
  { d3 with curPermissionLvl := JSVal.nullJ, alwaysFlag := false }

/-- `passthrough()`: store a fresh `PassthroughFieldMapper` at the current
level's key, then `_checkAndReset(this.delegate[this.curPermissionLvl])`. -/
def FieldMapperDelegate.passthrough (d : FieldMapperDelegate) : FieldMapperDelegate :=
  let d1 : FieldMapperDelegate := { d with
    delegate := update d.delegate d.curPermissionLvl.toKey
      (Slot.mapper ⟨d.nextId, FieldMapperData.passthroughFM⟩),
    nextId := d.nextId + 1 }
  d1._checkAndReset (d1.delegate d1.curPermissionLvl.toKey)

/-- `buildWith(builder)`: store a fresh `CustomFieldMapper(builder)` at the
current level's key, then `_checkAndReset`. -/
def FieldMapperDelegate.buildWith (d : FieldMapperDelegate) (builder : Nat) :
    FieldMapperDelegate :=
  let d1 : FieldMapperDelegate := { d with
    delegate := update d.delegate d.curPermissionLvl.toKey
      (Slot.mapper ⟨d.nextId, FieldMapperData.customFM builder⟩),
    nextId := d.nextId + 1 }
  d1._checkAndReset (d1.delegate d1.curPermissionLvl.toKey)

/-- The `else` branch of `subTransform` (no — or falsy — explicit level):
for every level of the ranking allocate a DISTINCT
`SubTransformFieldMapper(transformerKey, level)` and store it at that level,
clear the broadcast flag, then `_checkAndReset`. -/
def FieldMapperDelegate.subTransformCascade (d : FieldMapperDelegate)
    (transformerKey : String) : Except String FieldMapperDelegate :=
  let n := d.permissionRanking.length
  let d1 : FieldMapperDelegate := { d with
    delegate :=
      (List.range n).foldl
        (fun t i =>
          update t (d.permissionRanking.getD i "")
            (Slot.mapper ⟨d.nextId + i,
              FieldMapperData.subTransformFM transformerKey
                (d.permissionRanking.getD i "")⟩))
        d.delegate,
    nextId := d.nextId + n,
    alwaysFlag := false }
  Except.ok (d1._checkAndReset (d1.delegate d1.curPermissionLvl.toKey))

/-- `subTransform(transformerKey, permissionLvl)`.  A provided truthy level
is validated against the ranking (`Invalid permission lvl provided`
otherwise); then ONE `SubTransformFieldMapper(transformerKey, permissionLvl)`
is allocated and the SAME object is stored at every level.  An absent (or
falsy, i.e. empty-string) level takes the cascading branch.  Either way the
broadcast flag is cleared and `_checkAndReset` runs. -/
def FieldMapperDelegate.subTransform (d : FieldMapperDelegate)
    (transformerKey : String) (permissionLvl : Option String) :
    Except String FieldMapperDelegate :=
  match permissionLvl with
  | none => d.subTransformCascade transformerKey
  | some lvl =>
      if lvl = "" then d.subTransformCascade transformerKey
      else
        match jsIndexOf d.permissionRanking lvl with
        | none => Except.error "Invalid permission lvl provided"
        | some _ =>
            let m : Mapper := ⟨d.nextId, FieldMapperData.subTransformFM transformerKey lvl⟩
            let d1 : FieldMapperDelegate := { d with
              delegate :=
                d.permissionRanking.foldl
                  (fun t curPermissionLvl => update t curPermissionLvl (Slot.mapper m))
                  d.delegate,
              nextId := d.nextId + 1,
              alwaysFlag := false }
            Except.ok (d1._checkAndReset (d1.delegate d1.curPermissionLvl.toKey))

/-- `asList()`: set the `isList` flag. -/
def FieldMapperDelegate.asList (d : FieldMapperDelegate) : FieldMapperDelegate :=
  { d with isList := true }

/-- Outcome of `transform(permission, instance)`: either the forwarded call
`fieldMapper.map(instance, this.sourceKey, this.isList)` with the mapper and
the exact arguments, or `Promise.resolve()` — a promise that is already
resolved with `undefined` and can never reject. -/
inductive TransformCall (α : Type) where
  | callMap (m : Mapper) (inst : α) (sourceKey : String) (isList : Bool)
  | resolveUndefined
deriving DecidableEq

/-- `transform(permission, instance)`: look the level up in the table; a
(truthy) mapper object gets `map` delegated to it, otherwise resolve to
`undefined`. -/
def FieldMapperDelegate.transform {α : Type} (d : FieldMapperDelegate)
    (permission : String) (inst : α) : TransformCall α :=
  match d.delegate permission with
  | Slot.mapper m => TransformCall.callMap m inst d.sourceKey d.isList
  | _ => TransformCall.resolveUndefined

/-- The `capitalize` helper of `buildPermissionMethods`:
`str.charAt(0).toUpperCase() + str.toLowerCase().slice(1)` (uppercase the
first character, lowercase the rest; spelt over the character list so that
it evaluates by structural recursion). -/
def capitalize (s : String) : String :=
  String.mk ((s.data.take 1).map Char.toUpper) ++
    String.mk ((s.data.map Char.toLower).drop 1)

/-- Kind of a generated accessor: which parameterized selection call the
zero-argument wrapper forwards to. -/
inductive AccessorKind where
  | atOrAboveK
  | whenK
  | restrictToK
deriving DecidableEq, Repr

/-- A generated accessor method: its property name and the selection call it
wraps. -/
structure AccessorMethod where
  name : String
  kind : AccessorKind
  level : String
deriving DecidableEq, Repr

/-- The property name of a generated accessor: the fixed kind prefix
(`atOrAbove`, `when` or `restrictTo`) followed by the capitalized token. -/
def accessorName (k : AccessorKind) (permission : String) : String :=
  match k with
  | AccessorKind.atOrAboveK => "atOrAbove" ++ capitalize permission
  | AccessorKind.whenK => "when" ++ capitalize permission
  | AccessorKind.restrictToK => "restrictTo" ++ capitalize permission

/-- The three own-property assignments one `forEach` iteration of
`buildPermissionMethods()` performs for a token, in source order. -/
def accessorEntries (permission : String) : List AccessorMethod :=
  [⟨accessorName AccessorKind.atOrAboveK permission, AccessorKind.atOrAboveK, permission⟩,
   ⟨accessorName AccessorKind.whenK permission, AccessorKind.whenK, permission⟩,
   ⟨accessorName AccessorKind.restrictToK permission, AccessorKind.restrictToK, permission⟩]

/-- `buildPermissionMethods()`: the full sequence of own-property accessor
assignments on the delegate instance, in installation order (`forEach` over
the ranking). -/
def buildPermissionMethods (ranking : List String) : List AccessorMethod :=
  ranking.flatMap accessorEntries

/-- The accessor a delegate actually exposes at a property name after
`buildPermissionMethods()`: the assignments run in order and each
`this[name] = ...` overwrites the previous own property, so the LAST
assignment to a name wins (`none` when no generated accessor has the
name). -/
def exposedAccessor (ranking : List String) (name : String) :
    Option AccessorMethod :=
  (buildPermissionMethods ranking).foldl
    (fun acc a => if a.name = name then some a else acc) none

/-- Invoking a generated instance accessor: the wrapper body is
`() => this.atOrAbove(permission)` (resp. `when`, `restrictTo`). -/
def runAccessor (a : AccessorMethod) (d : FieldMapperDelegate) :
    Except String FieldMapperDelegate :=
  match a.kind with
  | AccessorKind.atOrAboveK => d.atOrAbove a.level
  | AccessorKind.whenK => Except.ok (d.when a.level)
  | AccessorKind.restrictToK => d.restrictTo a.level

/-- The fixed accessor set installed once on the prototype over the default
`PermissionRanking` (same names and wrapped calls as the per-instance
generation). -/
def defaultAccessorMethods : List AccessorMethod :=
  buildPermissionMethods PermissionRanking

/-- Invoking a prototype (default-ranking) accessor: the body first guards
`if (!this._defaultPermissionRanking) throw ...` and otherwise forwards to
the parameterized selection call. -/
def runDefaultAccessor (a : AccessorMethod) (d : FieldMapperDelegate) :
    Except String FieldMapperDelegate :=
  if d.defaultPermissionRanking = false then
    Except.error "Cannot use overwritten default permission ranking API"
  else runAccessor a d

/-- Reading an updated table at the updated key. -/
theorem update_self (t : String → Slot) (k : String) (v : Slot) :
    update t k v k = v := by
  simp [update]

/-- Reading an updated table at a different key. -/
theorem update_ne (t : String → Slot) (k : String) (v : Slot) (x : String)
    (h : x ≠ k) : update t k v x = t x := by
  simp [update, h]

/-- A loop writing the same value at every key of a list: a key reads back
that value exactly when it occurs in the list. -/
theorem foldl_update_const (v : Slot) :
    ∀ (ps : List String) (t : String → Slot) (k : String),
    (ps.foldl (fun t p => update t p v) t) k = if k ∈ ps then v else t k := by
  intro ps
  induction ps with
  | nil => intro t k; simp
  | cons p ps ih =>
      intro t k
      rw [List.foldl_cons, ih]
      by_cases h1 : k ∈ ps
      · simp [h1]
      · by_cases h2 : k = p
        · subst h2; simp [h1, update_self]
        · simp [h1, h2, update_ne t p v k h2]

/-- An in-bounds `getD` read is a member of the list. -/
theorem getD_mem : ∀ (l : List String) (n : Nat), n < l.length → l.getD n "" ∈ l := by
  intro l
  induction l with
  | nil => intro n h; simp at h
  | cons x xs ih =>
      intro n h
      cases n with
      | zero => simp
      | succ m =>
          have hm : m < xs.length := by simpa using h
          simpa using Or.inr (ih m hm)

/-- On a duplicate-free list, in-bounds `getD` reads are injective in the
index. -/
theorem getD_inj_of_nodup :
    ∀ (l : List String), l.Nodup → ∀ a b, a < l.length → b < l.length →
      l.getD a "" = l.getD b "" → a = b := by
  intro l
  induction l with
  | nil => intro _ a b ha; simp at ha
  | cons x xs ih =>
      intro hnd a b ha hb heq
      rw [List.nodup_cons] at hnd
      match a, b with
      | 0, 0 => rfl
      | 0, Nat.succ b1 =>
          exfalso
          rw [List.getD_cons_zero, List.getD_cons_succ] at heq
          exact hnd.1 (heq ▸ getD_mem xs b1 (by simpa using hb))
      | Nat.succ a1, 0 =>
          exfalso
          rw [List.getD_cons_succ, List.getD_cons_zero] at heq
          exact hnd.1 (heq ▸ getD_mem xs a1 (by simpa using ha))
      | Nat.succ a1, Nat.succ b1 =>
          have := ih hnd.2 a1 b1 (by simpa using ha) (by simpa using hb)
            (by simpa [List.getD_cons_succ] using heq)
          omega

/-- An indexed loop writing `v i` at key `f i` for every `i < n`: when the
keys are injective, index `j`'s key ends up holding `v j`, whatever the
starting table. -/
theorem foldl_range_update (f : Nat → String) (v : Nat → Slot) :
    ∀ (n : Nat) (t : String → Slot) (j : Nat), j < n →
    (∀ a b, a < n → b < n → f a = f b → a = b) →
    ((List.range n).foldl (fun t i => update t (f i) (v i)) t) (f j) = v j := by
  intro n
  induction n with
  | zero => intro t j hj _; omega
  | succ n ih =>
      intro t j hj hinj
      rw [List.range_succ, List.foldl_append, List.foldl_cons, List.foldl_nil]
      by_cases hjn : j = n
      · subst hjn; exact update_self ..
      · have hj1 : j < n := by omega
        have hne : f j ≠ f n := fun h => hjn (hinj j n (by omega) (by omega) h)
        rw [update_ne _ _ _ _ hne]
        exact ih t j hj1 (fun a b ha hb => hinj a b (by omega) (by omega))

/-- The `_always` copy loop never changes the value stored at the key it
reads from. -/
theorem foldl_always_keep (key : String) :
    ∀ (ps : List String) (t : String → Slot),
    (ps.foldl (fun acc p => update acc p (acc key)) t) key = t key := by
  intro ps
  induction ps with
  | nil => intro t; rfl
  | cons p ps ih =>
      intro t
      rw [List.foldl_cons, ih]
      show update t p (t key) key = t key
      unfold update
      split <;> rfl

/-- The `_always` copy loop keeps any key that already agrees with the read
key in agreement with it. -/
theorem foldl_always_pres (key : String) :
    ∀ (ps : List String) (t : String → Slot) (q : String), t q = t key →
    (ps.foldl (fun acc p => update acc p (acc key)) t) q = t key := by
  intro ps
  induction ps with
  | nil => intro t q h; exact h
  | cons p ps ih =>
      intro t q h
      rw [List.foldl_cons]
      have hkey : update t p (t key) key = t key := by
        unfold update; split <;> rfl
      have hq : update t p (t key) q = t key := by
        unfold update; split
        · rfl
        · exact h
      rw [ih _ _ (hq.trans hkey.symm), hkey]

/-- After the `_always` copy loop, every key that the loop visited holds the
value read at the read key. -/
theorem foldl_always_mem (key : String) :
    ∀ (ps : List String) (t : String → Slot) (q : String), q ∈ ps →
    (ps.foldl (fun acc p => update acc p (acc key)) t) q = t key := by
  intro ps
  induction ps with
  | nil => intro t q h; simp at h
  | cons p ps ih =>
      intro t q h
      rw [List.foldl_cons]
      have hkey : update t p (t key) key = t key := by
        unfold update; split <;> rfl
      rcases List.mem_cons.mp h with h1 | h1
      · subst h1
        have hq : update t q (t key) q = t key := update_self ..
        rw [foldl_always_pres key ps _ q (hq.trans hkey.symm), hkey]
      · rw [ih _ _ h1, hkey]

/-- A found index is in bounds. -/
theorem jsIndexOf_lt_length :
    ∀ (l : List String) (x : String) (i : Nat), jsIndexOf l x = some i →
      i < l.length := by
  intro l
  induction l with
  | nil => intro x i h; simp [jsIndexOf] at h
  | cons y ys ih =>
      intro x i h
      rw [jsIndexOf] at h
      split at h
      · simp only [Option.some.injEq] at h
        rw [← h]
        simp
      · rcases Option.map_eq_some'.mp h with ⟨j, hj, rfl⟩
        have := ih x j hj
        simpa using Nat.succ_lt_succ this

/-- The element at a found index is the element searched for. -/
theorem getD_jsIndexOf :
    ∀ (l : List String) (x : String) (i : Nat), jsIndexOf l x = some i →
      l.getD i "" = x := by
  intro l
  induction l with
  | nil => intro x i h; simp [jsIndexOf] at h
  | cons y ys ih =>
      intro x i h
      rw [jsIndexOf] at h
      split at h
      · rename_i heq
        simp only [Option.some.injEq] at h
        subst h
        simpa using heq
      · rcases Option.map_eq_some'.mp h with ⟨j, hj, rfl⟩
        simpa [List.getD_cons_succ] using ih x j hj

/-- `indexOf` misses exactly the absent elements. -/
theorem jsIndexOf_eq_none :
    ∀ (l : List String) (x : String), x ∉ l → jsIndexOf l x = none := by
  intro l
  induction l with
  | nil => intro x _; rfl
  | cons y ys ih =>
      intro x hx
      rw [jsIndexOf]
      have h1 : y ≠ x := fun h => hx (by simp [h])
      have h2 : x ∉ ys := fun h => hx (List.mem_cons_of_mem _ h)
      simp [h1, ih x h2]

/-- `_checkAndReset` always ends with `curPermissionLvl = null`. -/
theorem checkAndReset_cur (d : FieldMapperDelegate) (fm : Slot) :
    (d._checkAndReset fm).curPermissionLvl = JSVal.nullJ := rfl

/-- `_checkAndReset` always ends with the broadcast flag cleared. -/
theorem checkAndReset_alwaysFlag (d : FieldMapperDelegate) (fm : Slot) :
    (d._checkAndReset fm).alwaysFlag = false := rfl

/-- `_checkAndReset` does not clear the cutoff index. -/
theorem checkAndReset_restrictAtOrAbove (d : FieldMapperDelegate) (fm : Slot) :
    (d._checkAndReset fm).restrictAtOrAbove = d.restrictAtOrAbove := rfl

/-- `_checkAndReset` does not clear the sole-restriction index. -/
theorem checkAndReset_restrict (d : FieldMapperDelegate) (fm : Slot) :
    (d._checkAndReset fm).restrict = d.restrict := rfl

/-- `_checkAndReset` leaves the ranking alone. -/
theorem checkAndReset_ranking (d : FieldMapperDelegate) (fm : Slot) :
    (d._checkAndReset fm).permissionRanking = d.permissionRanking := rfl

/-- The table produced by `_checkAndReset`, spelt out as the three narrowing
passes in their fixed order. -/
theorem checkAndReset_delegate_eq (d : FieldMapperDelegate) (fm : Slot) :
    (d._checkAndReset fm).delegate =
      (let t1 :=
        if d.alwaysFlag then
          d.permissionRanking.foldl
            (fun t p => update t p (t d.curPermissionLvl.toKey)) d.delegate
        else d.delegate
       let t2 :=
        match d.restrictAtOrAbove with
        | none => t1
        | some cutoff =>
            (List.range d.permissionRanking.length).foldl
              (fun t i =>
                update t (d.permissionRanking.getD i "")
                  (if i < cutoff then Slot.nullSlot else fm)) t1
       match d.restrict with
       | none => t2
       | some sole =>
           (List.range d.permissionRanking.length).foldl
             (fun t i =>
               update t (d.permissionRanking.getD i "")
                 (if i ≠ sole then Slot.nullSlot else fm)) t2) := rfl

/-- With a sole-restriction index recorded, `_checkAndReset` forces every
ranking index other than the sole one to `null` and the sole one to the
mapper argument — regardless of the broadcast flag or a cutoff index,
because the sole pass runs last over every index. -/
theorem checkAndReset_sole (d : FieldMapperDelegate) (fm : Slot) (s : Nat)
    (hs : d.restrict = some s) (hnd : d.permissionRanking.Nodup)
    (i : Nat) (hi : i < d.permissionRanking.length) :
    (d._checkAndReset fm).delegate (d.permissionRanking.getD i "") =
      if i ≠ s then Slot.nullSlot else fm := by
  rw [checkAndReset_delegate_eq, hs]
  exact foldl_range_update _ _ _ _ i hi (getD_inj_of_nodup _ hnd)

/-- With a cutoff index recorded and no sole restriction, `_checkAndReset`
forces every ranking index below the cutoff to `null` and the rest to the
mapper argument. -/
theorem checkAndReset_cutoff (d : FieldMapperDelegate) (fm : Slot) (c : Nat)
    (hc : d.restrictAtOrAbove = some c) (hs : d.restrict = none)
    (hnd : d.permissionRanking.Nodup)
    (i : Nat) (hi : i < d.permissionRanking.length) :
    (d._checkAndReset fm).delegate (d.permissionRanking.getD i "") =
      if i < c then Slot.nullSlot else fm := by
  rw [checkAndReset_delegate_eq, hs, hc]
  exact foldl_range_update _ _ _ _ i hi (getD_inj_of_nodup _ hnd)

/-- With no narrowing state at all, `_checkAndReset` leaves the table
unchanged. -/
theorem checkAndReset_clean (d : FieldMapperDelegate) (fm : Slot)
    (hf : d.alwaysFlag = false) (hc : d.restrictAtOrAbove = none)
    (hs : d.restrict = none) :
    (d._checkAndReset fm).delegate = d.delegate := by
  rw [checkAndReset_delegate_eq, hs, hc, hf]
  simp

/-- With the broadcast flag set and no recorded restriction, the table after
`_checkAndReset` is the `_always` copy loop's table. -/
theorem checkAndReset_broadcast (d : FieldMapperDelegate) (fm : Slot)
    (hf : d.alwaysFlag = true) (hc : d.restrictAtOrAbove = none)
    (hs : d.restrict = none) :
    (d._checkAndReset fm).delegate =
      d.permissionRanking.foldl
        (fun t p => update t p (t d.curPermissionLvl.toKey)) d.delegate := by
  rw [checkAndReset_delegate_eq, hs, hc, hf]
  simp

/-- Appending to a fixed prefix string is injective. -/
theorem string_append_inj (pre : String) :
    ∀ (X Y : String), pre ++ X = pre ++ Y → X = Y := by
  intro X Y h
  have h2 : pre.data ++ X.data = pre.data ++ Y.data := congrArg String.data h
  have h3 : X.data = Y.data := List.append_cancel_left h2
  cases X with
  | mk xd =>
      cases Y with
      | mk yd => exact congrArg String.mk h3

/-- `when`-accessor names never collide with `atOrAbove`-accessor names
(their first characters differ). -/
theorem when_ne_atOrAbove_name (X Y : String) :
    "when" ++ X ≠ "atOrAbove" ++ Y := by
  intro h
  have h2 : (some 'w' : Option Char) = some 'a' :=
    congrArg (fun s => s.data.head?) h
  exact absurd h2 (by decide)

/-- `when`-accessor names never collide with `restrictTo`-accessor names. -/
theorem when_ne_restrictTo_name (X Y : String) :
    "when" ++ X ≠ "restrictTo" ++ Y := by
  intro h
  have h2 : (some 'w' : Option Char) = some 'r' :=
    congrArg (fun s => s.data.head?) h
  exact absurd h2 (by decide)

/-- `atOrAbove`-accessor names never collide with `restrictTo`-accessor
names. -/
theorem atOrAbove_ne_restrictTo_name (X Y : String) :
    "atOrAbove" ++ X ≠ "restrictTo" ++ Y := by
  intro h
  have h2 : (some 'a' : Option Char) = some 'r' :=
    congrArg (fun s => s.data.head?) h
  exact absurd h2 (by decide)

/-- A successful `find?` in the first part of an appended list. -/
theorem find?_append_some (P : AccessorMethod → Bool) :
    ∀ (l1 l2 : List AccessorMethod) (b : AccessorMethod),
      l1.find? P = some b → (l1 ++ l2).find? P = some b := by
  intro l1
  induction l1 with
  | nil => intro l2 b h; exact absurd h (by simp)
  | cons a l ih =>
      intro l2 b h
      by_cases hpa : P a = true
      · rw [List.find?_cons_of_pos _ hpa] at h
        rw [List.cons_append, List.find?_cons_of_pos _ hpa]
        exact h
      · rw [List.find?_cons_of_neg _ hpa] at h
        rw [List.cons_append, List.find?_cons_of_neg _ hpa]
        exact ih l2 b h

/-- A failed `find?` in the first part of an appended list. -/
theorem find?_append_none (P : AccessorMethod → Bool) :
    ∀ (l1 l2 : List AccessorMethod),
      l1.find? P = none → (l1 ++ l2).find? P = l2.find? P := by
  intro l1
  induction l1 with
  | nil => intro l2 _; rfl
  | cons a l ih =>
      intro l2 h
      by_cases hpa : P a = true
      · rw [List.find?_cons_of_pos _ hpa] at h
        exact absurd h (by simp)
      · rw [List.find?_cons_of_neg _ hpa] at h
        rw [List.cons_append, List.find?_cons_of_neg _ hpa]
        exact ih l2 h

/-- Reversing a flattened map reverses both levels. -/
theorem reverse_flatMap (f : String → List AccessorMethod) :
    ∀ l : List String,
      (l.flatMap f).reverse = l.reverse.flatMap (fun x => (f x).reverse) := by
  intro l
  induction l with
  | nil => rfl
  | cons x l ih =>
      rw [List.flatMap_cons, List.reverse_append, ih, List.reverse_cons,
        List.flatMap_append]
      simp

/-- Sequential own-property assignment with overwrite: the value exposed at
a name is the LAST matching assignment, i.e. the first match of the
reversed assignment sequence. -/
theorem foldl_overwrite (name : String) :
    ∀ (l : List AccessorMethod) (acc : Option AccessorMethod),
      l.foldl (fun acc a => if a.name = name then some a else acc) acc =
        (l.reverse.find? (fun a => a.name == name)).or acc := by
  intro l
  induction l with
  | nil => intro acc; rfl
  | cons a l ih =>
      intro acc
      rw [List.foldl_cons, ih, List.reverse_cons]
      cases hfind : l.reverse.find? (fun b => b.name == name) with
      | some b =>
          rw [find?_append_some _ _ _ _ hfind]
          rfl
      | none =>
          rw [find?_append_none _ _ _ hfind]
          by_cases hn : a.name = name
          · have e : (a.name == name) = true := beq_iff_eq.mpr hn
            simp [List.find?, e, hn, Option.or]
          · have e : (a.name == name) = false := beq_eq_false_iff_ne.mpr hn
            simp [List.find?, e, hn, Option.or]

/-- The exposed accessor at a name, as a reverse search of the installation
sequence. -/
theorem exposedAccessor_eq_find (ranking : List String) (name : String) :
    exposedAccessor ranking name =
      ((buildPermissionMethods ranking).reverse).find?
        (fun a => a.name == name) := by
  unfold exposedAccessor
  rw [foldl_overwrite]
  exact Option.or_none

/-- `find?` over the reversed three accessor assignments of one token:
exactly the kind-`k` entry matches the kind-`k` name of `p`, and only when
the capitalized tokens coincide (cross-kind names never collide). -/
theorem find?_entriesRev (k : AccessorKind) (q p : String) :
    ((accessorEntries q).reverse).find? (fun a => a.name == accessorName k p) =
      if capitalize q = capitalize p then
        some ⟨accessorName k q, k, q⟩ else none := by
  have hrev : (accessorEntries q).reverse =
      [⟨accessorName AccessorKind.restrictToK q, AccessorKind.restrictToK, q⟩,
       ⟨accessorName AccessorKind.whenK q, AccessorKind.whenK, q⟩,
       ⟨accessorName AccessorKind.atOrAboveK q, AccessorKind.atOrAboveK, q⟩] := rfl
  rw [hrev]
  by_cases hqp : capitalize q = capitalize p
  · have hsame : ∀ k2 : AccessorKind, accessorName k2 q = accessorName k2 p := by
      intro k2
      cases k2 <;> simp [accessorName, hqp]
    cases k with
    | atOrAboveK =>
        have e1 : (accessorName AccessorKind.restrictToK q ==
            accessorName AccessorKind.atOrAboveK p) = false :=
          beq_eq_false_iff_ne.mpr
            (fun h => atOrAbove_ne_restrictTo_name _ _ h.symm)
        have e2 : (accessorName AccessorKind.whenK q ==
            accessorName AccessorKind.atOrAboveK p) = false :=
          beq_eq_false_iff_ne.mpr (when_ne_atOrAbove_name _ _)
        have e3 : (accessorName AccessorKind.atOrAboveK q ==
            accessorName AccessorKind.atOrAboveK p) = true :=
          beq_iff_eq.mpr (hsame AccessorKind.atOrAboveK)
        simp [List.find?, e1, e2, e3, hqp]
    | whenK =>
        have e1 : (accessorName AccessorKind.restrictToK q ==
            accessorName AccessorKind.whenK p) = false :=
          beq_eq_false_iff_ne.mpr
            (fun h => when_ne_restrictTo_name _ _ h.symm)
        have e2 : (accessorName AccessorKind.whenK q ==
            accessorName AccessorKind.whenK p) = true :=
          beq_iff_eq.mpr (hsame AccessorKind.whenK)
        simp [List.find?, e1, e2, hqp]
    | restrictToK =>
        have e1 : (accessorName AccessorKind.restrictToK q ==
            accessorName AccessorKind.restrictToK p) = true :=
          beq_iff_eq.mpr (hsame AccessorKind.restrictToK)
        simp [List.find?, e1, hqp]
  · have hdiff : ∀ k2 : AccessorKind, accessorName k2 q ≠ accessorName k2 p := by
      intro k2 h
      cases k2 with
      | atOrAboveK => exact hqp (string_append_inj "atOrAbove" _ _ h)
      | whenK => exact hqp (string_append_inj "when" _ _ h)
      | restrictToK => exact hqp (string_append_inj "restrictTo" _ _ h)
    cases k with
    | atOrAboveK =>
        have e1 : (accessorName AccessorKind.restrictToK q ==
            accessorName AccessorKind.atOrAboveK p) = false :=
          beq_eq_false_iff_ne.mpr
            (fun h => atOrAbove_ne_restrictTo_name _ _ h.symm)
        have e2 : (accessorName AccessorKind.whenK q ==
            accessorName AccessorKind.atOrAboveK p) = false :=
          beq_eq_false_iff_ne.mpr (when_ne_atOrAbove_name _ _)
        have e3 : (accessorName AccessorKind.atOrAboveK q ==
            accessorName AccessorKind.atOrAboveK p) = false :=
          beq_eq_false_iff_ne.mpr (hdiff AccessorKind.atOrAboveK)
        simp [List.find?, e1, e2, e3, hqp]
    | whenK =>
        have e1 : (accessorName AccessorKind.restrictToK q ==
            accessorName AccessorKind.whenK p) = false :=
          beq_eq_false_iff_ne.mpr
            (fun h => when_ne_restrictTo_name _ _ h.symm)
        have e2 : (accessorName AccessorKind.whenK q ==
            accessorName AccessorKind.whenK p) = false :=
          beq_eq_false_iff_ne.mpr (hdiff AccessorKind.whenK)
        have e3 : (accessorName AccessorKind.atOrAboveK q ==
            accessorName AccessorKind.whenK p) = false :=
          beq_eq_false_iff_ne.mpr
            (fun h => when_ne_atOrAbove_name _ _ h.symm)
        simp [List.find?, e1, e2, e3, hqp]
    | restrictToK =>
        have e1 : (accessorName AccessorKind.restrictToK q ==
            accessorName AccessorKind.restrictToK p) = false :=
          beq_eq_false_iff_ne.mpr (hdiff AccessorKind.restrictToK)
        have e2 : (accessorName AccessorKind.whenK q ==
            accessorName AccessorKind.restrictToK p) = false :=
          beq_eq_false_iff_ne.mpr (when_ne_restrictTo_name _ _)
        have e3 : (accessorName AccessorKind.atOrAboveK q ==
            accessorName AccessorKind.restrictToK p) = false :=
          beq_eq_false_iff_ne.mpr (atOrAbove_ne_restrictTo_name _ _)
        simp [List.find?, e1, e2, e3, hqp]

/-- `find?` over the flattened (reversed) per-token assignment blocks is the
per-token search mapped over the token list. -/
theorem find?_flatMap_entries (k : AccessorKind) (p : String) :
    ∀ l : List String,
      (l.flatMap (fun q => (accessorEntries q).reverse)).find?
          (fun a => a.name == accessorName k p) =
        (l.find? (fun q => capitalize q == capitalize p)).map
          (fun q => (⟨accessorName k q, k, q⟩ : AccessorMethod)) := by
  intro l
  induction l with
  | nil => rfl
  | cons q l ih =>
      rw [List.flatMap_cons]
      by_cases h : capitalize q = capitalize p
      · have h1 : ((accessorEntries q).reverse).find?
            (fun a => a.name == accessorName k p) =
              some ⟨accessorName k q, k, q⟩ := by
          rw [find?_entriesRev, if_pos h]
        rw [find?_append_some _ _ _ _ h1]
        have e : (capitalize q == capitalize p) = true := beq_iff_eq.mpr h
        simp [List.find?, e]
      · have h1 : ((accessorEntries q).reverse).find?
            (fun a => a.name == accessorName k p) = none := by
          rw [find?_entriesRev, if_neg h]
        rw [find?_append_none _ _ _ h1]
        have e : (capitalize q == capitalize p) = false :=
          beq_eq_false_iff_ne.mpr h
        rw [ih]
        simp [List.find?, e]

/-- The accessor a delegate exposes at the kind-`k` name of token `p` is the
wrapper for the LAST ranking token whose capitalized form equals
`capitalize p`. -/
theorem exposedAccessor_spec (ranking : List String) (k : AccessorKind)
    (p : String) :
    exposedAccessor ranking (accessorName k p) =
      (ranking.reverse.find? (fun q => capitalize q == capitalize p)).map
        (fun q => (⟨accessorName k q, k, q⟩ : AccessorMethod)) := by
  rw [exposedAccessor_eq_find]
  have h2 : (buildPermissionMethods ranking).reverse =
      ranking.reverse.flatMap (fun q => (accessorEntries q).reverse) := by
    unfold buildPermissionMethods
    exact reverse_flatMap accessorEntries ranking
  rw [h2]
  exact find?_flatMap_entries k p ranking.reverse

/-- Claim C1: for every delegate, permission token `L` and instance: if the
mapping table holds a mapper at `L`, `transform(L, instance)` returns that
mapper's `map(instance, sourceKey, isList)`; if the table holds no mapper at
`L` (explicitly denied or never configured), `transform(L, instance)`
resolves to `undefined` — `Promise.resolve()`, which never rejects —
regardless of the instance's contents. -/
theorem claim_C1 {α : Type} (d : FieldMapperDelegate) (L : String) (inst : α) :
    (∀ m : Mapper, d.delegate L = Slot.mapper m →
      d.transform L inst = TransformCall.callMap m inst d.sourceKey d.isList) ∧
    (d.delegate L = Slot.undef ∨ d.delegate L = Slot.nullSlot →
      d.transform L inst = TransformCall.resolveUndefined) := by
  constructor
  · intro m hm
    simp [FieldMapperDelegate.transform, hm]
  · intro hm
    rcases hm with h | h <;> simp [FieldMapperDelegate.transform, h]

/-- Concrete delegate for the C1 witness: `when(high).passthrough()` on a
custom-ranking delegate leaves a mapper at `high` and nothing at `low`. -/
def dC1w : FieldMapperDelegate :=
  ((FieldMapperDelegate.create "woop" (some ["low", "high"])).when "high").passthrough

/-- Witness for C1 at a concrete delegate and instance. -/
theorem claim_C1_witness :
    dC1w.transform "high" (200 : Nat) =
      TransformCall.callMap ⟨0, FieldMapperData.passthroughFM⟩ 200 "woop" false ∧
    dC1w.transform "low" (200 : Nat) = TransformCall.resolveUndefined :=
  ⟨(claim_C1 dC1w "high" 200).1 ⟨0, FieldMapperData.passthroughFM⟩ (by decide),
   (claim_C1 dC1w "low" 200).2 (Or.inl (by decide))⟩

/-- Concrete delegate reached by a builder chain for the C7 counterexample:
`when(high).passthrough()` on a custom-ranking delegate. -/
def dC7x : FieldMapperDelegate :=
  ((FieldMapperDelegate.create "woop" (some ["low", "high"])).when "high").passthrough

/-- Claim C7 counterexample: after the builder chain
`when(high); passthrough()`, the ranking level `low` holds neither a
mapper nor the explicit `null` denial marker at the moment `transform` is
invoked — its slot is still the absent "not yet configured" marker
`Slot.undef` (a constructor distinct from `Slot.nullSlot` and from every
`Slot.mapper m`), refuting the claimed invariant that every level is
mapper-or-explicit-denial. -/
theorem claim_C7_counterexample :
    "low" ∈ dC7x.permissionRanking ∧
    dC7x.delegate "low" = Slot.undef ∧
    dC7x.transform "low" (0 : Nat) = TransformCall.resolveUndefined := by
  decide

/-- Claim C7 amended: at the moment `transform` is invoked a ranking level
may hold a mapper, the explicit denial marker, or still be unconfigured
(absent) — absence and denial both resolve to `undefined` — and no level
ever silently defaults to pass-through: whenever `transform` delegates to a
mapper, that exact mapper object is stored in the queried level's slot, and
the arguments forwarded are exactly the instance, the delegate's source key
and its list flag. -/
theorem claim_C7_amended {α : Type} (d : FieldMapperDelegate) (L : String)
    (inst : α) (m : Mapper) (v : α) (sk : String) (il : Bool)
    (h : d.transform L inst = TransformCall.callMap m v sk il) :
    d.delegate L = Slot.mapper m ∧ v = inst ∧ sk = d.sourceKey ∧
      il = d.isList := by
  unfold FieldMapperDelegate.transform at h
  cases hd : d.delegate L with
  | undef => rw [hd] at h; exact absurd h (by simp)
  | nullSlot => rw [hd] at h; exact absurd h (by simp)
  | mapper m0 =>
      rw [hd] at h
      injection h with h1 h2 h3 h4
      exact ⟨by rw [h1], h2.symm, h3.symm, h4.symm⟩

/-- Witness for the amended C7 at a concrete delegate. -/
theorem claim_C7_witness :
    dC7x.delegate "high" = Slot.mapper ⟨0, FieldMapperData.passthroughFM⟩ :=
  (claim_C7_amended dC7x "high" (0 : Nat) ⟨0, FieldMapperData.passthroughFM⟩
    0 "woop" false (by decide)).1

/-- Claim C8: every default-ranking convenience accessor (the prototype
methods generated over the canonical default tokens), invoked on a delegate
constructed with a custom (non-default) ranking, synchronously throws the
"unsupported on custom ranking" error
(`Cannot use overwritten default permission ranking API`). -/
theorem claim_C8 (sk : String) (ranking : List String) (a : AccessorMethod)
    (ha : a ∈ defaultAccessorMethods) :
    runDefaultAccessor a (FieldMapperDelegate.create sk (some ranking)) =
      Except.error "Cannot use overwritten default permission ranking API" := by
  simp [runDefaultAccessor, FieldMapperDelegate.create]

/-- Witness for C8: `whenPrivate` on a delegate built with the custom
ranking `["low","medium","high"]` throws. -/
theorem claim_C8_witness :
    runDefaultAccessor ⟨"whenPrivate", AccessorKind.whenK, "PRIVATE"⟩
      (FieldMapperDelegate.create "woop" (some ["low", "medium", "high"])) =
      Except.error "Cannot use overwritten default permission ranking API" :=
  claim_C8 "woop" ["low", "medium", "high"]
    ⟨"whenPrivate", AccessorKind.whenK, "PRIVATE"⟩ (by decide)

/-- Claim C9 counterexample: the accessor names are NOT derived by
capitalizing the first character with the remainder unchanged.  For the
custom ranking token `loW` the claim predicts an accessor `whenLoW`; the
generated names lowercase the remainder (`str.toLowerCase().slice(1)`), so
the accessors are `atOrAboveLow`, `whenLow`, `restrictToLow` and no accessor
named `whenLoW` exists. -/
theorem claim_C9_counterexample :
    ((buildPermissionMethods ["loW"]).map (fun a => a.name) =
      ["atOrAboveLow", "whenLow", "restrictToLow"]) ∧
    "whenLoW" ∉ (buildPermissionMethods ["loW"]).map (fun a => a.name) := by
  decide

/-- Claim C9 amended: accessor names are derived by uppercasing the token's
first character and LOWERCASING the remainder, and the accessors are
installed in ranking order as own properties, so the accessor a delegate
exposes at a generated name is the zero-argument wrapper for the LAST
ranking token whose capitalized form yields that name (first conjunct).
Consequently, for every token `p` that is the last token of its ranking
with its capitalized form — in particular for every token whenever the
capitalized forms are pairwise distinct — the delegate exposes
`atOrAbove<Level>`, `when<Level>` and `restrictTo<Level>`, each behaving
identically to the corresponding parameterized selection call with `p`. -/
theorem claim_C9_amended (ranking : List String) (p : String)
    (hp : p ∈ ranking)
    (hlast : ranking.reverse.find? (fun q => capitalize q == capitalize p) =
      some p) :
    (∀ k : AccessorKind,
      exposedAccessor ranking (accessorName k p) =
        (ranking.reverse.find? (fun q => capitalize q == capitalize p)).map
          (fun q => (⟨accessorName k q, k, q⟩ : AccessorMethod))) ∧
    (exposedAccessor ranking (accessorName AccessorKind.atOrAboveK p) =
        some ⟨accessorName AccessorKind.atOrAboveK p, AccessorKind.atOrAboveK, p⟩ ∧
     exposedAccessor ranking (accessorName AccessorKind.whenK p) =
        some ⟨accessorName AccessorKind.whenK p, AccessorKind.whenK, p⟩ ∧
     exposedAccessor ranking (accessorName AccessorKind.restrictToK p) =
        some ⟨accessorName AccessorKind.restrictToK p, AccessorKind.restrictToK, p⟩) ∧
    (∀ d : FieldMapperDelegate,
      runAccessor ⟨accessorName AccessorKind.atOrAboveK p,
          AccessorKind.atOrAboveK, p⟩ d = d.atOrAbove p ∧
      runAccessor ⟨accessorName AccessorKind.whenK p,
          AccessorKind.whenK, p⟩ d = Except.ok (d.when p) ∧
      runAccessor ⟨accessorName AccessorKind.restrictToK p,
          AccessorKind.restrictToK, p⟩ d = d.restrictTo p) := by
  refine ⟨fun k => exposedAccessor_spec ranking k p, ⟨?_, ?_, ?_⟩,
    fun d => ⟨rfl, rfl, rfl⟩⟩ <;>
    · rw [exposedAccessor_spec, hlast]
      rfl

/-- Witness for the amended C9: on the spec's example custom ranking every
capitalized form is distinct, so `low` exposes its three wrappers behaving
as the parameterized calls; and on the capitalize-colliding duplicate-free
ranking `[loW, low]` the LATER token `low` wins the shared name `whenLow`. -/
theorem claim_C9_witness :
    exposedAccessor ["low", "medium", "high"]
        (accessorName AccessorKind.whenK "low") =
      some ⟨accessorName AccessorKind.whenK "low", AccessorKind.whenK, "low"⟩ ∧
    runAccessor ⟨accessorName AccessorKind.whenK "low", AccessorKind.whenK, "low"⟩
        (FieldMapperDelegate.create "woop" (some ["low", "medium", "high"])) =
      Except.ok
        ((FieldMapperDelegate.create "woop" (some ["low", "medium", "high"])).when
          "low") ∧
    exposedAccessor ["loW", "low"] (accessorName AccessorKind.whenK "low") =
      some ⟨accessorName AccessorKind.whenK "low", AccessorKind.whenK, "low"⟩ :=
  ⟨(claim_C9_amended ["low", "medium", "high"] "low" (by decide)
      (by decide)).2.1.2.1,
   ((claim_C9_amended ["low", "medium", "high"] "low" (by decide)
      (by decide)).2.2 _).2.1,
   (claim_C9_amended ["loW", "low"] "low" (by decide) (by decide)).2.1.2.1⟩

/-- `passthrough()` in closed form: the fresh mapper goes in at the current
key and `_checkAndReset` receives that same mapper (the read-back
`this.delegate[this.curPermissionLvl]` of the slot just written). -/
theorem passthrough_eq (d : FieldMapperDelegate) :
    d.passthrough =
      ({ d with
        delegate := update d.delegate d.curPermissionLvl.toKey
          (Slot.mapper ⟨d.nextId, FieldMapperData.passthroughFM⟩),
        nextId := d.nextId + 1 } : FieldMapperDelegate)._checkAndReset
        (Slot.mapper ⟨d.nextId, FieldMapperData.passthroughFM⟩) := by
  simp only [FieldMapperDelegate.passthrough]
  rw [update_self]

/-- `buildWith(builder)` in closed form, as for `passthrough`. -/
theorem buildWith_eq (d : FieldMapperDelegate) (builder : Nat) :
    d.buildWith builder =
      ({ d with
        delegate := update d.delegate d.curPermissionLvl.toKey
          (Slot.mapper ⟨d.nextId, FieldMapperData.customFM builder⟩),
        nextId := d.nextId + 1 } : FieldMapperDelegate)._checkAndReset
        (Slot.mapper ⟨d.nextId, FieldMapperData.customFM builder⟩) := by
  simp only [FieldMapperDelegate.buildWith]
  rw [update_self]

/-- `passthrough()` on a delegate with a pending sole-restriction index:
the final narrowing pass decides every ranking slot, whatever the broadcast
flag or a pending cutoff also say. -/
theorem passthrough_delegate_sole (d : FieldMapperDelegate) (s : Nat)
    (hs : d.restrict = some s) (hnd : d.permissionRanking.Nodup)
    (j : Nat) (hj : j < d.permissionRanking.length) :
    (d.passthrough).delegate (d.permissionRanking.getD j "") =
      if j ≠ s then Slot.nullSlot
      else Slot.mapper ⟨d.nextId, FieldMapperData.passthroughFM⟩ := by
  rw [passthrough_eq]
  refine checkAndReset_sole _ _ s ?_ ?_ j ?_
  · exact hs
  · exact hnd
  · exact hj

/-- `passthrough()` on a delegate with a pending cutoff index and no sole
restriction: slots below the cutoff are denied, the rest get the fresh
pass-through mapper. -/
theorem passthrough_delegate_cutoff (d : FieldMapperDelegate) (c : Nat)
    (hc : d.restrictAtOrAbove = some c) (hs : d.restrict = none)
    (hnd : d.permissionRanking.Nodup)
    (i : Nat) (hi : i < d.permissionRanking.length) :
    (d.passthrough).delegate (d.permissionRanking.getD i "") =
      if i < c then Slot.nullSlot
      else Slot.mapper ⟨d.nextId, FieldMapperData.passthroughFM⟩ := by
  rw [passthrough_eq]
  refine checkAndReset_cutoff _ _ c ?_ ?_ ?_ i ?_
  · exact hc
  · exact hs
  · exact hnd
  · exact hi

/-- `buildWith(builder)` on a delegate with a pending cutoff index and no
sole restriction. -/
theorem buildWith_delegate_cutoff (d : FieldMapperDelegate) (builder : Nat)
    (c : Nat) (hc : d.restrictAtOrAbove = some c) (hs : d.restrict = none)
    (hnd : d.permissionRanking.Nodup)
    (i : Nat) (hi : i < d.permissionRanking.length) :
    (d.buildWith builder).delegate (d.permissionRanking.getD i "") =
      if i < c then Slot.nullSlot
      else Slot.mapper ⟨d.nextId, FieldMapperData.customFM builder⟩ := by
  rw [buildWith_eq]
  refine checkAndReset_cutoff _ _ c ?_ ?_ ?_ i ?_
  · exact hc
  · exact hs
  · exact hnd
  · exact hi

/-- An indexed update loop never touches a key outside its write set. -/
theorem foldl_range_update_not_mem (f : Nat → String) (v : Nat → Slot) :
    ∀ (n : Nat) (t : String → Slot) (k : String),
      (∀ i, i < n → f i ≠ k) →
      ((List.range n).foldl (fun t i => update t (f i) (v i)) t) k = t k := by
  intro n
  induction n with
  | zero => intro t k _; rfl
  | succ n ih =>
      intro t k hk
      rw [List.range_succ, List.foldl_append, List.foldl_cons, List.foldl_nil]
      rw [update_ne _ _ _ _ (fun h => hk n (by omega) h.symm)]
      exact ih t k (fun i hi => hk i (by omega))

/-- Cutoff narrowing, with the value handed to the narrowing step
identified separately (for assignment calls whose read-back needs its own
computation). -/
theorem checkAndReset_cutoff_fb (d : FieldMapperDelegate) (fm fm2 : Slot)
    (c : Nat) (hfb : fm = fm2)
    (hc : d.restrictAtOrAbove = some c) (hs : d.restrict = none)
    (hnd : d.permissionRanking.Nodup)
    (i : Nat) (hi : i < d.permissionRanking.length) :
    (d._checkAndReset fm).delegate (d.permissionRanking.getD i "") =
      if i < c then Slot.nullSlot else fm2 := by
  subst hfb
  exact checkAndReset_cutoff d fm c hc hs hnd i hi

/-- `always(); passthrough()` on a delegate with no pending restriction:
every ranking token receives the one fresh pass-through mapper. -/
theorem always_passthrough_delegate (d : FieldMapperDelegate)
    (hc : d.restrictAtOrAbove = none) (hs : d.restrict = none)
    (P : String) (hP : P ∈ d.permissionRanking) :
    (d.always.passthrough).delegate P =
      Slot.mapper ⟨d.nextId, FieldMapperData.passthroughFM⟩ := by
  rw [passthrough_eq]
  refine Eq.trans (congrFun (checkAndReset_broadcast _ _ ?_ ?_ ?_) P) ?_
  · rfl
  · exact hc
  · exact hs
  · exact (foldl_always_mem _ _ _ _ hP).trans (update_self _ _ _)

/-- Concrete delegate for the C2 counterexample: `restrictTo(high)` was
called on a custom-ranking delegate, so a sole-restriction index is pending
when the `always().passthrough()` chain runs. -/
def dC2x : FieldMapperDelegate :=
  ((FieldMapperDelegate.create "woop" (some ["low", "high"])).restrictTo
      "high").toOption.getD
    (FieldMapperDelegate.create "woop" (some ["low", "high"]))

/-- Claim C2 counterexample: on a delegate carrying a pending
sole-restriction index, `always(); passthrough()` does NOT leave a
pass-through mapper at every ranking token: the narrowing pass re-applies
the restriction and `low`'s slot ends as the explicit `null` denial. -/
theorem claim_C2_counterexample :
    "low" ∈ dC2x.permissionRanking ∧
    (dC2x.always.passthrough).delegate "low" = Slot.nullSlot := by
  decide

/-- Claim C2 amended: for every delegate with NO pending cutoff or
sole-restriction index (in particular any freshly constructed or
never-restricted delegate) and every token `P` of its ranking, after
`always(); passthrough()` the table at `P` holds a pass-through mapper — the
same single mapper object (serial `d.nextId`) at every level — and
`curPermissionLvl` is reset to `null`. -/
theorem claim_C2_amended (d : FieldMapperDelegate)
    (h1 : d.restrictAtOrAbove = none) (h2 : d.restrict = none) :
    (∀ P ∈ d.permissionRanking,
      (d.always.passthrough).delegate P =
        Slot.mapper ⟨d.nextId, FieldMapperData.passthroughFM⟩) ∧
    (d.always.passthrough).curPermissionLvl = JSVal.nullJ := by
  constructor
  · intro P hP
    exact always_passthrough_delegate d h1 h2 P hP
  · rfl

/-- Witness for the amended C2 on a fresh custom-ranking delegate. -/
theorem claim_C2_witness :
    ((FieldMapperDelegate.create "woop" (some ["low", "high"])).always.passthrough).delegate
        "low" = Slot.mapper ⟨0, FieldMapperData.passthroughFM⟩ ∧
    ((FieldMapperDelegate.create "woop" (some ["low", "high"])).always.passthrough).delegate
        "high" = Slot.mapper ⟨0, FieldMapperData.passthroughFM⟩ ∧
    ((FieldMapperDelegate.create "woop" (some ["low", "high"])).always.passthrough).curPermissionLvl =
      JSVal.nullJ :=
  ⟨(claim_C2_amended (FieldMapperDelegate.create "woop" (some ["low", "high"]))
      rfl rfl).1 "low" (by decide),
   (claim_C2_amended (FieldMapperDelegate.create "woop" (some ["low", "high"]))
      rfl rfl).1 "high" (by decide),
   (claim_C2_amended (FieldMapperDelegate.create "woop" (some ["low", "high"]))
      rfl rfl).2⟩

/-- Claim C3: for every delegate (with a duplicate-free ranking, as the
spec's data-model invariant requires) and every token `P` of its ranking at
index `idx`, after `restrictTo(P); passthrough()` every ranking index below
`idx` is denied, index `idx` holds the fresh pass-through mapper, and (with
no cutoff set) every index above `idx` is denied as well — only the sole
index is populated. -/
theorem claim_C3 (d : FieldMapperDelegate) (P : String) (idx : Nat)
    (hnd : d.permissionRanking.Nodup)
    (hc : d.restrictAtOrAbove = none)
    (hfind : jsIndexOf d.permissionRanking P = some idx)
    (d1 : FieldMapperDelegate) (hok : d.restrictTo P = Except.ok d1)
    (i : Nat) (hi : i < d.permissionRanking.length) :
    (d1.passthrough).delegate (d.permissionRanking.getD i "") =
      if i ≠ idx then Slot.nullSlot
      else Slot.mapper ⟨d.nextId, FieldMapperData.passthroughFM⟩ := by
  simp only [FieldMapperDelegate.restrictTo, hfind, Except.ok.injEq] at hok
  subst hok
  refine passthrough_delegate_sole _ idx ?_ ?_ i ?_
  · rfl
  · exact hnd
  · exact hi

/-- Concrete delegate after `restrictTo(high)` for the C3 witness. -/
def dC3w : FieldMapperDelegate :=
  ((FieldMapperDelegate.create "woop" (some ["low", "high"])).restrictTo
      "high").toOption.getD
    (FieldMapperDelegate.create "woop" (some ["low", "high"]))

/-- Witness for C3: `restrictTo(high).passthrough()` on a fresh
custom-ranking delegate denies `low` and maps `high`. -/
theorem claim_C3_witness :
    (dC3w.passthrough).delegate "low" = Slot.nullSlot ∧
    (dC3w.passthrough).delegate "high" =
      Slot.mapper ⟨0, FieldMapperData.passthroughFM⟩ :=
  ⟨claim_C3 (FieldMapperDelegate.create "woop" (some ["low", "high"])) "high" 1
      (by decide) rfl (by decide) dC3w rfl 0 (by decide),
   claim_C3 (FieldMapperDelegate.create "woop" (some ["low", "high"])) "high" 1
      (by decide) rfl (by decide) dC3w rfl 1 (by decide)⟩

/-- Claim C6: every assignment call (`passthrough`, `buildWith`,
`subTransform`) ends with `curPermissionLvl = null` and the broadcast flag
cleared, while a previously recorded cutoff or sole-restriction index is
left set (not cleared); consequently a pending sole restriction is
re-applied by the narrowing step of the next assignment on the same
delegate even when no new selection call was made (last conjunct). -/
theorem claim_C6 (d : FieldMapperDelegate) (builder : Nat) (ref : String)
    (lvlOpt : Option String) :
    ((d.passthrough).curPermissionLvl = JSVal.nullJ ∧
     (d.passthrough).alwaysFlag = false ∧
     (d.passthrough).restrictAtOrAbove = d.restrictAtOrAbove ∧
     (d.passthrough).restrict = d.restrict) ∧
    ((d.buildWith builder).curPermissionLvl = JSVal.nullJ ∧
     (d.buildWith builder).alwaysFlag = false ∧
     (d.buildWith builder).restrictAtOrAbove = d.restrictAtOrAbove ∧
     (d.buildWith builder).restrict = d.restrict) ∧
    (∀ d2, d.subTransform ref lvlOpt = Except.ok d2 →
      d2.curPermissionLvl = JSVal.nullJ ∧ d2.alwaysFlag = false ∧
      d2.restrictAtOrAbove = d.restrictAtOrAbove ∧ d2.restrict = d.restrict) ∧
    (∀ s, d.restrict = some s → d.restrictAtOrAbove = none →
      d.permissionRanking.Nodup →
      ∀ j, j < d.permissionRanking.length →
        (d.passthrough).delegate (d.permissionRanking.getD j "") =
          if j ≠ s then Slot.nullSlot
          else Slot.mapper ⟨d.nextId, FieldMapperData.passthroughFM⟩) := by
  refine ⟨⟨rfl, rfl, rfl, rfl⟩, ⟨rfl, rfl, rfl, rfl⟩, ?_, ?_⟩
  · intro d2 hok
    cases lvlOpt with
    | none =>
        simp only [FieldMapperDelegate.subTransform,
          FieldMapperDelegate.subTransformCascade, Except.ok.injEq] at hok
        subst hok
        exact ⟨rfl, rfl, rfl, rfl⟩
    | some lvl =>
        simp only [FieldMapperDelegate.subTransform] at hok
        split at hok
        · simp only [FieldMapperDelegate.subTransformCascade,
            Except.ok.injEq] at hok
          subst hok
          exact ⟨rfl, rfl, rfl, rfl⟩
        · split at hok
          · exact absurd hok (by simp)
          · simp only [Except.ok.injEq] at hok
            subst hok
            exact ⟨rfl, rfl, rfl, rfl⟩
  · intro s hs hca hnd j hj
    exact passthrough_delegate_sole d s hs hnd j hj

/-- Concrete delegate with a pending sole restriction for the C6 witness. -/
def dC6w : FieldMapperDelegate :=
  ((FieldMapperDelegate.create "woop" (some ["low", "high"])).restrictTo
      "high").toOption.getD
    (FieldMapperDelegate.create "woop" (some ["low", "high"]))

/-- Witness for C6: the reset fields and the silent re-application of the
pending sole restriction by a later bare `passthrough()`. -/
theorem claim_C6_witness :
    (dC6w.passthrough).curPermissionLvl = JSVal.nullJ ∧
    (dC6w.passthrough).restrict = some 1 ∧
    (dC6w.passthrough).delegate "low" = Slot.nullSlot := by
  have h := claim_C6 dC6w 0 "child" none
  refine ⟨h.1.1, (h.1.2.2.2).trans (by decide), ?_⟩
  exact h.2.2.2 1 (by decide) (by decide) (by decide) 0 (by decide)

/-- Intermediate delegate for the C4 counterexample: `atOrAbove(high)`
recorded cutoff index 1. -/
def dC4a : FieldMapperDelegate :=
  ((FieldMapperDelegate.create "woop" (some ["low", "high"])).atOrAbove
      "high").toOption.getD
    (FieldMapperDelegate.create "woop" (some ["low", "high"]))

/-- Delegate for the C4 counterexample: after `atOrAbove(high)` and then
`restrictTo(low)`, both a cutoff index (1) and a sole index (0) are
recorded when the assignment runs. -/
def dC4x : FieldMapperDelegate :=
  (dC4a.restrictTo "low").toOption.getD dC4a

/-- Claim C4 counterexample: on a delegate whose cutoff index is set (to 1)
but whose sole index is also set (to 0), the assignment `passthrough()` does
NOT follow the claimed cutoff rule: ranking index 0 (`low`), although below
the cutoff, ends with the assigned mapper, and ranking index 1 (`high`),
although at/above the cutoff, ends denied — the sole-restriction pass runs
after the cutoff pass and wins. -/
theorem claim_C4_counterexample :
    dC4x.restrictAtOrAbove = some 1 ∧
    dC4x.restrict = some 0 ∧
    dC4x.permissionRanking.getD 0 "" = "low" ∧
    dC4x.permissionRanking.getD 1 "" = "high" ∧
    (dC4x.passthrough).delegate "low" =
      Slot.mapper ⟨0, FieldMapperData.passthroughFM⟩ ∧
    (dC4x.passthrough).delegate "high" = Slot.nullSlot := by
  decide

/-- Claim C4 amended: for every delegate (duplicate-free ranking) whose
cutoff index is set AND whose sole-restriction index is unset when an
assignment call runs, the narrowing step forces every ranking index below
the cutoff to denied and every index at or above it to the single value the
assignment hands it: the post-write read-back of the current level's slot.
For `passthrough` and `buildWith` that read-back is always the mapper just
assigned; for `subTransform` it is the sub-transform mapper just assigned
at the current level whenever the chain selected a ranking level (explicit
mode: the one shared mapper; cascading mode: the mapper bound to the
selected level), but when `currentLevel` is null (no selection preceded the
call) the read-back is the stale `null`-key slot — e.g. the absent marker
on a delegate never assigned without a selection — and NOT a just-assigned
mapper. -/
theorem claim_C4_amended (d : FieldMapperDelegate) (c : Nat)
    (hc : d.restrictAtOrAbove = some c) (hs : d.restrict = none)
    (hnd : d.permissionRanking.Nodup) :
    (∀ fm i, i < d.permissionRanking.length →
      (d._checkAndReset fm).delegate (d.permissionRanking.getD i "") =
        if i < c then Slot.nullSlot else fm) ∧
    (∀ i, i < d.permissionRanking.length →
      (d.passthrough).delegate (d.permissionRanking.getD i "") =
        if i < c then Slot.nullSlot
        else Slot.mapper ⟨d.nextId, FieldMapperData.passthroughFM⟩) ∧
    (∀ b i, i < d.permissionRanking.length →
      (d.buildWith b).delegate (d.permissionRanking.getD i "") =
        if i < c then Slot.nullSlot
        else Slot.mapper ⟨d.nextId, FieldMapperData.customFM b⟩) ∧
    (∀ ref lvl L d2 i, lvl ≠ "" → d.curPermissionLvl = JSVal.strJ L →
      L ∈ d.permissionRanking →
      d.subTransform ref (some lvl) = Except.ok d2 →
      i < d.permissionRanking.length →
      d2.delegate (d.permissionRanking.getD i "") =
        if i < c then Slot.nullSlot
        else Slot.mapper ⟨d.nextId, FieldMapperData.subTransformFM ref lvl⟩) ∧
    (∀ ref L j d2 i, d.curPermissionLvl = JSVal.strJ L →
      jsIndexOf d.permissionRanking L = some j →
      d.subTransform ref none = Except.ok d2 →
      i < d.permissionRanking.length →
      d2.delegate (d.permissionRanking.getD i "") =
        if i < c then Slot.nullSlot
        else Slot.mapper ⟨d.nextId + j, FieldMapperData.subTransformFM ref L⟩) ∧
    (∀ ref d2 i, d.curPermissionLvl = JSVal.nullJ →
      "null" ∉ d.permissionRanking →
      d.subTransform ref none = Except.ok d2 →
      i < d.permissionRanking.length →
      d2.delegate (d.permissionRanking.getD i "") =
        if i < c then Slot.nullSlot else d.delegate "null") := by
  refine ⟨?_, ?_, ?_, ?_, ?_, ?_⟩
  · intro fm i hi
    exact checkAndReset_cutoff d fm c hc hs hnd i hi
  · intro i hi
    exact passthrough_delegate_cutoff d c hc hs hnd i hi
  · intro b i hi
    exact buildWith_delegate_cutoff d b c hc hs hnd i hi
  · intro ref lvl L d2 i hne hcur hmem hok hi
    simp only [FieldMapperDelegate.subTransform] at hok
    split at hok
    · rename_i heq
      exact absurd heq hne
    · split at hok
      · exact absurd hok (by simp)
      · simp only [Except.ok.injEq] at hok
        subst hok
        refine checkAndReset_cutoff_fb _ _ _ c ?_ ?_ ?_ ?_ i ?_
        · show (d.permissionRanking.foldl
              (fun t curPermissionLvl => update t curPermissionLvl
                (Slot.mapper ⟨d.nextId,
                  FieldMapperData.subTransformFM ref lvl⟩))
              d.delegate) d.curPermissionLvl.toKey =
            Slot.mapper ⟨d.nextId, FieldMapperData.subTransformFM ref lvl⟩
          rw [hcur]
          exact (foldl_update_const _ _ _ _).trans
            (by simp [JSVal.toKey, hmem])
        · exact hc
        · exact hs
        · exact hnd
        · exact hi
  · intro ref L j d2 i hcur hfind hok hi
    simp only [FieldMapperDelegate.subTransform,
      FieldMapperDelegate.subTransformCascade, Except.ok.injEq] at hok
    subst hok
    refine checkAndReset_cutoff_fb _ _ _ c ?_ ?_ ?_ ?_ i ?_
    · show ((List.range d.permissionRanking.length).foldl
          (fun t i => update t (d.permissionRanking.getD i "")
            (Slot.mapper ⟨d.nextId + i,
              FieldMapperData.subTransformFM ref
                (d.permissionRanking.getD i "")⟩))
          d.delegate) d.curPermissionLvl.toKey =
        Slot.mapper ⟨d.nextId + j, FieldMapperData.subTransformFM ref L⟩
      have hrank : d.permissionRanking.getD j "" = L :=
        getD_jsIndexOf _ _ _ hfind
      have h5 : ((List.range d.permissionRanking.length).foldl
          (fun t i => update t (d.permissionRanking.getD i "")
            (Slot.mapper ⟨d.nextId + i,
              FieldMapperData.subTransformFM ref
                (d.permissionRanking.getD i "")⟩))
          d.delegate) (d.permissionRanking.getD j "") =
          Slot.mapper ⟨d.nextId + j,
            FieldMapperData.subTransformFM ref
              (d.permissionRanking.getD j "")⟩ :=
        foldl_range_update _ _ _ _ j (jsIndexOf_lt_length _ _ _ hfind)
          (getD_inj_of_nodup _ hnd)
      rw [hrank] at h5
      rw [hcur]
      exact h5
    · exact hc
    · exact hs
    · exact hnd
    · exact hi
  · intro ref d2 i hcur hnn hok hi
    simp only [FieldMapperDelegate.subTransform,
      FieldMapperDelegate.subTransformCascade, Except.ok.injEq] at hok
    subst hok
    refine checkAndReset_cutoff_fb _ _ _ c ?_ ?_ ?_ ?_ i ?_
    · show ((List.range d.permissionRanking.length).foldl
          (fun t i => update t (d.permissionRanking.getD i "")
            (Slot.mapper ⟨d.nextId + i,
              FieldMapperData.subTransformFM ref
                (d.permissionRanking.getD i "")⟩))
          d.delegate) d.curPermissionLvl.toKey = d.delegate "null"
      rw [hcur]
      show ((List.range d.permissionRanking.length).foldl
          (fun t i => update t (d.permissionRanking.getD i "")
            (Slot.mapper ⟨d.nextId + i,
              FieldMapperData.subTransformFM ref
                (d.permissionRanking.getD i "")⟩))
          d.delegate) "null" = d.delegate "null"
      refine foldl_range_update_not_mem _ _ _ _ _ ?_
      intro i2 hi2 h
      have h2 : d.permissionRanking.getD i2 "" = "null" := h
      exact hnn (h2 ▸ getD_mem _ i2 hi2)
    · exact hc
    · exact hs
    · exact hnd
    · exact hi

/-- Delegate with only a cutoff index (1) recorded, for the C4 witness. -/
def dC4w : FieldMapperDelegate :=
  ((FieldMapperDelegate.create "woop" (some ["low", "high"])).atOrAbove
      "high").toOption.getD
    (FieldMapperDelegate.create "woop" (some ["low", "high"]))

/-- Result of the chained `atOrAbove(high).subTransform('child')` on the
cutoff delegate, for the C4 witness. -/
def dC4s : FieldMapperDelegate :=
  (dC4w.subTransform "child" none).toOption.getD dC4w

/-- Witness for the amended C4: `atOrAbove(high).passthrough()` denies
`low` and maps `high`, and the chained `atOrAbove(high).subTransform('child')`
denies `low` and leaves at `high` the cascade mapper bound to the selected
level `high`. -/
theorem claim_C4_witness :
    (dC4w.passthrough).delegate "low" = Slot.nullSlot ∧
    (dC4w.passthrough).delegate "high" =
      Slot.mapper ⟨0, FieldMapperData.passthroughFM⟩ ∧
    dC4s.delegate "low" = Slot.nullSlot ∧
    dC4s.delegate "high" =
      Slot.mapper ⟨1, FieldMapperData.subTransformFM "child" "high"⟩ := by
  have h := claim_C4_amended dC4w 1 (by decide) (by decide) (by decide)
  refine ⟨h.2.1 0 (by decide), h.2.1 1 (by decide), ?_, ?_⟩
  · exact h.2.2.2.2.1 "child" "high" 1 dC4s 0 (by decide) (by decide) rfl
      (by decide)
  · exact h.2.2.2.2.1 "child" "high" 1 dC4s 1 (by decide) (by decide) rfl
      (by decide)

/-- Intermediate delegate for the C5 counterexample: `restrictTo(low)`
recorded sole index 0. -/
def dC5a : FieldMapperDelegate :=
  ((FieldMapperDelegate.create "woop" (some ["low", "high"])).restrictTo
      "low").toOption.getD
    (FieldMapperDelegate.create "woop" (some ["low", "high"]))

/-- Second chain of the C5 counterexample: the `passthrough()` assignment
consumed the sole restriction but left it recorded. -/
def dC5b : FieldMapperDelegate := dC5a.passthrough

/-- Result of `subTransform('child', high)` on the dirty delegate. -/
def dC5x : FieldMapperDelegate :=
  (dC5b.subTransform "child" (some "high")).toOption.getD dC5b

/-- Claim C5 counterexample: on a delegate still carrying a recorded sole
restriction from an earlier chain, `subTransform(ref, high)` succeeds
but does NOT leave the one shared sub-transform mapper in every level's
slot: the stale narrowing re-runs afterwards and the final table holds no
sub-transform mapper at any level (`low` ends absent, `high` ends
denied). -/
theorem claim_C5_counterexample :
    "low" ∈ dC5b.permissionRanking ∧
    dC5b.subTransform "child" (some "high") = Except.ok dC5x ∧
    dC5x.delegate "low" = Slot.undef ∧
    dC5x.delegate "high" = Slot.nullSlot :=
  ⟨by decide, rfl, by decide, by decide⟩

/-- Claim C5 amended: for every delegate with NO pending cutoff or sole
restriction: `subTransform(ref, lvl)` with a (truthy) explicit level fails
when the level is absent from the ranking; when it is present the call
succeeds, clears the broadcast flag whatever its prior value, and stores
ONE sub-transform mapper bound to `lvl` — the same single object (serial
`d.nextId`) — in every level's slot; without an explicit level it succeeds,
clears the broadcast flag, and stores at each ranking level `L` a DISTINCT
sub-transform mapper (pairwise different serials) bound to that very `L`. -/
theorem claim_C5_amended (d : FieldMapperDelegate) (ref : String) (lvl : String)
    (h1 : d.restrictAtOrAbove = none) (h2 : d.restrict = none) :
    (lvl ≠ "" → jsIndexOf d.permissionRanking lvl = none →
      d.subTransform ref (some lvl) =
        Except.error "Invalid permission lvl provided") ∧
    (∀ d2, lvl ≠ "" → d.subTransform ref (some lvl) = Except.ok d2 →
      d2.alwaysFlag = false ∧
      ∀ P ∈ d.permissionRanking,
        d2.delegate P =
          Slot.mapper ⟨d.nextId, FieldMapperData.subTransformFM ref lvl⟩) ∧
    (∀ d2, d.permissionRanking.Nodup → d.subTransform ref none = Except.ok d2 →
      d2.alwaysFlag = false ∧
      ∀ i, i < d.permissionRanking.length →
        d2.delegate (d.permissionRanking.getD i "") =
          Slot.mapper ⟨d.nextId + i,
            FieldMapperData.subTransformFM ref
              (d.permissionRanking.getD i "")⟩) ∧
    (∀ i j : Nat, i ≠ j →
      (⟨d.nextId + i,
          FieldMapperData.subTransformFM ref
            (d.permissionRanking.getD i "")⟩ : Mapper) ≠
        ⟨d.nextId + j,
          FieldMapperData.subTransformFM ref
            (d.permissionRanking.getD j "")⟩) := by
  refine ⟨?_, ?_, ?_, ?_⟩
  · intro hne habs
    simp only [FieldMapperDelegate.subTransform]
    rw [if_neg hne, habs]
  · intro d2 hne hok
    simp only [FieldMapperDelegate.subTransform] at hok
    split at hok
    · rename_i heq
      exact absurd heq hne
    · split at hok
      · exact absurd hok (by simp)
      · simp only [Except.ok.injEq] at hok
        subst hok
        refine ⟨rfl, ?_⟩
        intro P hP
        refine Eq.trans (congrFun (checkAndReset_clean _ _ ?_ ?_ ?_) P) ?_
        · rfl
        · exact h1
        · exact h2
        · exact (foldl_update_const _ _ _ _).trans (by simp [hP])
  · intro d2 hnd hok
    simp only [FieldMapperDelegate.subTransform,
      FieldMapperDelegate.subTransformCascade, Except.ok.injEq] at hok
    subst hok
    refine ⟨rfl, ?_⟩
    intro i hi
    refine Eq.trans
      (congrFun (checkAndReset_clean _ _ ?_ ?_ ?_)
        (d.permissionRanking.getD i "")) ?_
    · rfl
    · exact h1
    · exact h2
    · exact foldl_range_update _ _ _ _ i hi (getD_inj_of_nodup _ hnd)
  · intro i j hij hEq
    apply hij
    have h3 := congrArg Mapper.mid hEq
    simp only at h3
    omega

/-- Result of `subTransform('child', high)` on a fresh delegate, for the
C5 witness. -/
def dC5w : FieldMapperDelegate :=
  ((FieldMapperDelegate.create "woop" (some ["low", "high"])).subTransform
      "child" (some "high")).toOption.getD
    (FieldMapperDelegate.create "woop" (some ["low", "high"]))

/-- Witness for the amended C5: on a fresh delegate the explicit-level mode
stores the same sub-transform mapper object at both levels and clears the
broadcast flag. -/
theorem claim_C5_witness :
    dC5w.alwaysFlag = false ∧
    dC5w.delegate "low" =
      Slot.mapper ⟨0, FieldMapperData.subTransformFM "child" "high"⟩ ∧
    dC5w.delegate "high" =
      Slot.mapper ⟨0, FieldMapperData.subTransformFM "child" "high"⟩ := by
  have h := (claim_C5_amended
      (FieldMapperDelegate.create "woop" (some ["low", "high"])) "child"
      "high" rfl rfl).2.1 dC5w (by decide) rfl
  exact ⟨h.1, h.2 "low" (by decide), h.2 "high" (by decide)⟩

/-- Delegate for the C10 counterexample: the custom ranking contains the
literal token `undefined`, which collides with the property key JavaScript
uses for `this.delegate[this.curPermissionLvl]` when no selection call ever
ran. -/
def dC10x : FieldMapperDelegate :=
  (FieldMapperDelegate.create "woop" (some ["undefined"])).passthrough

/-- Claim C10 counterexample: with the ranking token `undefined`, a bare
`passthrough()` on a fresh delegate records the mapper under the RANKING key
`undefined` (JavaScript coerces the unset current level to that string), so
`transform('undefined', instance)` does not resolve to `undefined` — it
invokes the pass-through mapper. -/
theorem claim_C10_counterexample :
    "undefined" ∈
      (FieldMapperDelegate.create "woop" (some ["undefined"])).permissionRanking ∧
    dC10x.transform "undefined" (0 : Nat) =
      TransformCall.callMap ⟨0, FieldMapperData.passthroughFM⟩ 0 "woop" false := by
  decide

/-- Claim C10 amended: on a freshly constructed delegate whose ranking does
not contain the literal token `undefined`, a bare `passthrough()` (no prior
selection call) raises no error — in the model it is a total function, as in
the source nothing can throw — and records the mapper under the non-ranking
key `undefined`, leaving every ranking level's slot untouched (absent), so
`transform(L, instance)` still resolves to `undefined` for every level `L`
of the ranking. -/
theorem claim_C10_amended {α : Type} (sk : String) (ro : Option (List String))
    (L : String) (inst : α)
    (hu : "undefined" ∉ (FieldMapperDelegate.create sk ro).permissionRanking)
    (hL : L ∈ (FieldMapperDelegate.create sk ro).permissionRanking) :
    ((FieldMapperDelegate.create sk ro).passthrough).delegate L = Slot.undef ∧
    ((FieldMapperDelegate.create sk ro).passthrough).transform L inst =
      TransformCall.resolveUndefined ∧
    ((FieldMapperDelegate.create sk ro).passthrough).delegate "undefined" =
      Slot.mapper ⟨0, FieldMapperData.passthroughFM⟩ := by
  have hne : L ≠ "undefined" := fun h => hu (h ▸ hL)
  have htab : ((FieldMapperDelegate.create sk ro).passthrough).delegate =
      update (fun _ => Slot.undef) "undefined"
        (Slot.mapper ⟨0, FieldMapperData.passthroughFM⟩) := by
    rw [passthrough_eq]
    exact checkAndReset_clean _ _ rfl rfl rfl
  have hslotL : ((FieldMapperDelegate.create sk ro).passthrough).delegate L =
      Slot.undef :=
    (congrFun htab L).trans (update_ne _ _ _ _ hne)
  have hslotU :
      ((FieldMapperDelegate.create sk ro).passthrough).delegate "undefined" =
        Slot.mapper ⟨0, FieldMapperData.passthroughFM⟩ :=
    (congrFun htab "undefined").trans (update_self _ _ _)
  refine ⟨hslotL, ?_, hslotU⟩
  unfold FieldMapperDelegate.transform
  rw [hslotL]

/-- Witness for the amended C10 on a fresh custom-ranking delegate. -/
theorem claim_C10_witness :
    ((FieldMapperDelegate.create "woop" (some ["low", "high"])).passthrough).delegate
        "low" = Slot.undef ∧
    ((FieldMapperDelegate.create "woop" (some ["low", "high"])).passthrough).transform
        "low" (0 : Nat) = TransformCall.resolveUndefined ∧
    ((FieldMapperDelegate.create "woop" (some ["low", "high"])).passthrough).delegate
        "undefined" = Slot.mapper ⟨0, FieldMapperData.passthroughFM⟩ :=
  claim_C10_amended "woop" (some ["low", "high"]) "low" 0 (by decide) (by decide)

end Transform
